import Mathlib

/-!
# A verification development for the simple blockchain ledger (`src/main.go`)

The ledger engine of `main.go` is embedded shallowly:

* a Go `string` is an immutable byte sequence, here `List (Fin 256)`;
* a Go `int` is the 64-bit two-complement integer of the usual targets, here an
  `Int` together with the explicit wrap-around `wrapInt64`;
* the package-level variable `Blockchain` is passed explicitly as a state;
* `time.Now().String()` is an input of the functions that read the clock;
* an index-out-of-range panic is the result `none`.

The library functions the program calls (`crypto/sha256`, `encoding/hex` and the
integer-to-string conversion of the Go runtime) are transcribed as executable
definitions, so every definition below can be evaluated on concrete inputs.
-/

namespace SimpleBlockchain

/-! ## Go values -/

/-- Go strings are byte sequences. -/
abbrev GoString := List (Fin 256)

/-- Conversion `byte(n)` of a non-negative integer: the low eight bits. -/
def toByte (n : Nat) : Fin 256 := ⟨n % 256, Nat.mod_lt n (by decide)⟩

/-- Bytes of an ASCII literal, used to write concrete inputs readably. -/
def ofAscii (s : String) : GoString := s.data.map (fun c => toByte c.toNat)

/-- Result of 64-bit signed arithmetic: the representative in `[-2^63, 2^63)`. -/
def wrapInt64 (x : Int) : Int :=
  (x + 9223372036854775808) % 18446744073709551616 - 9223372036854775808

/-- Conversion `rune(v)`, that is `int32(v)`: the representative in `[-2^31, 2^31)`. -/
def wrapInt32 (x : Int) : Int :=
  (x + 2147483648) % 4294967296 - 2147483648

/-! ## `string(int)`: `runtime.intstring` and `runtime.encoderune` -/

/-- The replacement character U+FFFD (`runeError` of the Go runtime). -/
def runeError : Int := 65533

/-- UTF-8 encoding of a rune as done by `encoderune` of the Go runtime. The switch is
on `i := uint32(r)`; the case `i > maxRune` or `i` a surrogate sets `r = runeError` and
falls through to the three-byte case. -/
def encoderune (r : Int) : GoString :=
  let i : Nat := (r % 4294967296).toNat
  if i ≤ 127 then
    [toByte i]
  else if i ≤ 2047 then
    [toByte (192 ||| (i >>> 6) % 256), toByte (128 ||| (i % 256 &&& 63))]
  else if 1114111 < i ∨ (55296 ≤ i ∧ i ≤ 57343) then
    [239, 191, 189]
  else if i ≤ 65535 then
    [toByte (224 ||| (i >>> 12) % 256), toByte (128 ||| ((i >>> 6) % 256 &&& 63)),
     toByte (128 ||| (i % 256 &&& 63))]
  else
    [toByte (240 ||| (i >>> 18) % 256), toByte (128 ||| ((i >>> 12) % 256 &&& 63)),
     toByte (128 ||| ((i >>> 6) % 256 &&& 63)), toByte (128 ||| (i % 256 &&& 63))]

/-- The conversion `string(v)` of an integer, as done by `intstring` of the Go runtime:
`if int64(rune(v)) != v { v = runeError }`, then the UTF-8 encoding of `rune(v)`. -/
def intstring (v : Int) : GoString :=
  let v1 := if wrapInt32 v ≠ v then runeError else v
  encoderune (wrapInt32 v1)

/-! ## `crypto/sha256` (FIPS 180-4) -/

/-- Addition of 32-bit words. -/
def add32 (x y : Nat) : Nat := (x + y) % 4294967296

/-- Rotation of a 32-bit word to the right by `n` bits. -/
def rotr (n x : Nat) : Nat := ((x >>> n) ||| (x <<< (32 - n))) % 4294967296

/-- The choice function `Ch`. -/
def ch (x y z : Nat) : Nat := (x &&& y) ^^^ ((x ^^^ 4294967295) &&& z)

/-- The majority function `Maj`. -/
def maj (x y z : Nat) : Nat := (x &&& y) ^^^ (x &&& z) ^^^ (y &&& z)

/-- The function written as capital sigma, index 0. -/
def bigSigma0 (x : Nat) : Nat := rotr 2 x ^^^ rotr 13 x ^^^ rotr 22 x

/-- The function written as capital sigma, index 1. -/
def bigSigma1 (x : Nat) : Nat := rotr 6 x ^^^ rotr 11 x ^^^ rotr 25 x

/-- The function written as small sigma, index 0. -/
def smallSigma0 (x : Nat) : Nat := rotr 7 x ^^^ rotr 18 x ^^^ (x >>> 3)

/-- The function written as small sigma, index 1. -/
def smallSigma1 (x : Nat) : Nat := rotr 17 x ^^^ rotr 19 x ^^^ (x >>> 10)

/-- The sixty-four round constants. -/
def roundConstants : List Nat :=
  [0x428a2f98, 0x71374491, 0xb5c0fbcf, 0xe9b5dba5, 0x3956c25b, 0x59f111f1, 0x923f82a4, 0xab1c5ed5,
   0xd807aa98, 0x12835b01, 0x243185be, 0x550c7dc3, 0x72be5d74, 0x80deb1fe, 0x9bdc06a7, 0xc19bf174,
   0xe49b69c1, 0xefbe4786, 0x0fc19dc6, 0x240ca1cc, 0x2de92c6f, 0x4a7484aa, 0x5cb0a9dc, 0x76f988da,
   0x983e5152, 0xa831c66d, 0xb00327c8, 0xbf597fc7, 0xc6e00bf3, 0xd5a79147, 0x06ca6351, 0x14292967,
   0x27b70a85, 0x2e1b2138, 0x4d2c6dfc, 0x53380d13, 0x650a7354, 0x766a0abb, 0x81c2c92e, 0x92722c85,
   0xa2bfe8a1, 0xa81a664b, 0xc24b8b70, 0xc76c51a3, 0xd192e819, 0xd6990624, 0xf40e3585, 0x106aa070,
   0x19a4c116, 0x1e376c08, 0x2748774c, 0x34b0bcb5, 0x391c0cb3, 0x4ed8aa4a, 0x5b9cca4f, 0x682e6ff3,
   0x748f82ee, 0x78a5636f, 0x84c87814, 0x8cc70208, 0x90befffa, 0xa4506ceb, 0xbef9a3f7, 0xc67178f2]

/-- The eight working words of the hash. -/
structure Digest where
  h0 : Nat
  h1 : Nat
  h2 : Nat
  h3 : Nat
  h4 : Nat
  h5 : Nat
  h6 : Nat
  h7 : Nat
deriving DecidableEq

/-- The initial hash value. -/
def initDigest : Digest :=
  ⟨0x6a09e667, 0xbb67ae85, 0x3c6ef372, 0xa54ff53a, 0x510e527f, 0x9b05688c, 0x1f83d9ab, 0x5be0cd19⟩

/-- Big-endian 32-bit words of a byte list, four bytes a word. -/
def wordsOfBytes : List Nat → List Nat
  | a :: b :: c :: d :: rest => (a * 16777216 + b * 65536 + c * 256 + d) :: wordsOfBytes rest
  | _ => []

/-- Extension of the message schedule, kept newest word first, by `n` further words. -/
def extendSchedule : Nat → List Nat → List Nat
  | 0, w => w
  | n + 1, w =>
    let next := add32 (add32 (smallSigma1 (w.getD 1 0)) (w.getD 6 0))
                      (add32 (smallSigma0 (w.getD 14 0)) (w.getD 15 0))
    extendSchedule n (next :: w)

/-- The sixty-four schedule words of one block, oldest first. -/
def schedule (blockWords : List Nat) : List Nat :=
  (extendSchedule 48 blockWords.reverse).reverse

/-- One round of the compression function on a round constant and a schedule word. -/
def round (s : Digest) (kw : Nat × Nat) : Digest :=
  let t1 := add32 (add32 (add32 s.h7 (bigSigma1 s.h4)) (add32 (ch s.h4 s.h5 s.h6) kw.1)) kw.2
  let t2 := add32 (bigSigma0 s.h0) (maj s.h0 s.h1 s.h2)
  ⟨add32 t1 t2, s.h0, s.h1, s.h2, add32 s.h3 t1, s.h4, s.h5, s.h6⟩

/-- The compression function on one 64-byte block. -/
def compress (s : Digest) (block : List Nat) : Digest :=
  let r := (roundConstants.zip (schedule (wordsOfBytes block))).foldl round s
  ⟨add32 s.h0 r.h0, add32 s.h1 r.h1, add32 s.h2 r.h2, add32 s.h3 r.h3,
   add32 s.h4 r.h4, add32 s.h5 r.h5, add32 s.h6 r.h6, add32 s.h7 r.h7⟩

/-- Big-endian rendering of `x` on `n` bytes. -/
def bytesBE : Nat → Nat → List Nat
  | 0, _ => []
  | n + 1, x => (x / 256 ^ n) % 256 :: bytesBE n x

/-- Padding: the byte `0x80`, zero bytes up to 56 modulo 64, the bit length on 8 bytes. -/
def pad (msg : List Nat) : List Nat :=
  let l := msg.length
  msg ++ 128 :: List.replicate ((119 - l % 64) % 64) 0 ++
    bytesBE 8 ((8 * l) % 18446744073709551616)

/-- Compression of the first `n` blocks of a byte list. -/
def processBlocks : Nat → Digest → List Nat → Digest
  | 0, s, _ => s
  | n + 1, s, bytes => processBlocks n (compress s (bytes.take 64)) (bytes.drop 64)

/-- The final working words for a message. -/
def sha256Digest (msg : List Nat) : Digest :=
  let p := pad msg
  processBlocks (p.length / 64) initDigest p

/-- The thirty-two digest bytes of the working words. -/
def Digest.bytes (d : Digest) : List (Fin 256) :=
  (bytesBE 4 d.h0 ++ bytesBE 4 d.h1 ++ bytesBE 4 d.h2 ++ bytesBE 4 d.h3 ++
   bytesBE 4 d.h4 ++ bytesBE 4 d.h5 ++ bytesBE 4 d.h6 ++ bytesBE 4 d.h7).map toByte

/-- The sequence `h := sha256.New(); h.Write(msg); h.Sum(nil)`. -/
def sha256Sum (msg : GoString) : List (Fin 256) :=
  (sha256Digest (msg.map Fin.val)).bytes

/-! ## `encoding/hex` -/

/-- The table `hextable = "0123456789abcdef"` of `encoding/hex`. -/
def hextable : GoString :=
  [48, 49, 50, 51, 52, 53, 54, 55, 56, 57, 97, 98, 99, 100, 101, 102]

/-- The function `hex.EncodeToString`: `hextable[v>>4]` then `hextable[v&0x0f]` for each
byte `v`. -/
def EncodeToString : List (Fin 256) → GoString
  | [] => []
  | v :: rest =>
    hextable.getD (v.val >>> 4) 0 :: hextable.getD (v.val &&& 15) 0 :: EncodeToString rest

/-! ## The program -/

/-- The struct `Block`, fields in declaration order. -/
structure Block where
  Index : Int
  Timestamp : GoString
  BPM : Int
  Hash : GoString
  PrevHash : GoString
deriving DecidableEq

/-- The function `calculateHash`. -/
def calculateHash (block : Block) : GoString :=
  let record := intstring block.Index ++ block.Timestamp ++ intstring block.BPM ++ block.PrevHash
  let hashed := sha256Sum record
  EncodeToString hashed

/-- The function `generateBlock`; `now` is `time.Now().String()`. The second component is
the returned `error`, `none` standing for `nil`. -/
def generateBlock (now : GoString) (oldBlock : Block) (BPM : Int) : Block × Option GoString :=
  let newBlock : Block := ⟨0, [], 0, [], []⟩
  let newBlock := { newBlock with Index := wrapInt64 (oldBlock.Index + 1) }
  let newBlock := { newBlock with Timestamp := now }
  let newBlock := { newBlock with BPM := BPM }
  let newBlock := { newBlock with PrevHash := oldBlock.Hash }
  let newBlock := { newBlock with Hash := calculateHash newBlock }
  (newBlock, none)

/-- The function `isBlockValid`. -/
def isBlockValid (newBlock oldBlock : Block) : Bool :=
  if wrapInt64 (oldBlock.Index + 1) ≠ newBlock.Index then
    false
  else if oldBlock.Hash ≠ newBlock.PrevHash then
    false
  else if calculateHash newBlock ≠ newBlock.Hash then
    false
  else
    true

/-- The function `replaceChain`: the value of the global `Blockchain` afterwards. -/
def replaceChain (Blockchain newBlocks : List Block) : List Block :=
  if newBlocks.length > Blockchain.length then newBlocks else Blockchain

/-- The struct `Message`. -/
structure Message where
  BPM : Int
deriving DecidableEq

/-- What `respondWithJson` is called with: the status code and, for `StatusCreated`, the
block given as payload. -/
inductive Response where
  | badRequest : Response
  | created : Block → Response
deriving DecidableEq

/-- The handler `writeToBlockchain`. `decoded` is the outcome of decoding the request body
(`none` when decoding fails), `now` the clock reading of `generateBlock`. The result is the
value of `Blockchain` afterwards and the response; `none` is the index-out-of-range panic
of `Blockchain[len(Blockchain)-1]` on an empty chain. -/
def writeToBlockchain (now : GoString) (Blockchain : List Block) (decoded : Option Message) :
    Option (List Block × Response) :=
  match decoded with
  | none => some (Blockchain, Response.badRequest)
  | some m =>
    match Blockchain.getLast? with
    | none => none
    | some last =>
      match generateBlock now last m.BPM with
      | (_, some _) => some (Blockchain, Response.badRequest)
      | (newBlock, none) =>
        if isBlockValid newBlock last then
          let newBlockchain := Blockchain ++ [newBlock]
          some (replaceChain Blockchain newBlockchain, Response.created newBlock)
        else
          some (Blockchain, Response.created newBlock)

/-- The block literal `Block{0, t.String(), 0, "", ""}` of `main`: the fields are given
in declaration order, so the fourth value is `Hash` and the fifth `PrevHash`. -/
def firstblock (now : GoString) : Block := ⟨0, now, 0, [], []⟩

/-- The value of `Blockchain` once the goroutine of `main` has run: the append of
`firstblock` to the nil slice. -/
def main (now : GoString) : List Block := ([] : List Block) ++ [firstblock now]

/-- Chains reachable from the chain installed by `main` by successful write requests. -/
inductive Reachable : List Block → Prop where
  | init (now : GoString) : Reachable (main now)
  | write {chain chain1 : List Block} {resp : Response} (now : GoString) (m : Message) :
      Reachable chain → writeToBlockchain now chain (some m) = some (chain1, resp) →
      Reachable chain1

/-- Lowercase hexadecimal digits: `0` to `9` and `a` to `f`. -/
def isLowerHexDigit (c : Fin 256) : Prop :=
  (48 ≤ c.val ∧ c.val ≤ 57) ∨ (97 ≤ c.val ∧ c.val ≤ 102)

instance (c : Fin 256) : Decidable (isLowerHexDigit c) := by
  unfold isLowerHexDigit
  infer_instance

/-! ## Concrete inputs -/

/-- A clock reading for the genesis block. -/
def genesisTime : GoString := ofAscii "2019-03-05 10:21:44.123456789 +0100 WAT m=+0.000123456"

/-- A clock reading for a first write. -/
def writeTime1 : GoString := ofAscii "2019-03-05 10:22:03.500000001 +0100 WAT m=+19.376666668"

/-- A clock reading for a second write. -/
def writeTime2 : GoString := ofAscii "2019-03-05 10:22:09.250000002 +0100 WAT m=+25.126666669"

/-- The genesis block installed at `genesisTime`. -/
def exampleGenesis : Block := ⟨0, genesisTime, 0, [], []⟩

/-- The block written at `writeTime1` with measurement 72 on top of `exampleGenesis`. -/
def exampleBlock1 : Block :=
  ⟨1, writeTime1, 72, ofAscii "6ff28a173c35203b349a3c42bf57b3208338e3161ee3fe99d7d7d633eac1b579",
   []⟩

/-- The block written at `writeTime2` with measurement 85 on top of `exampleBlock1`. -/
def exampleBlock2 : Block :=
  ⟨2, writeTime2, 85, ofAscii "14c391d77f24eae24e8cde916a7cfe24613430497e696d9650215120733adb92",
   ofAscii "6ff28a173c35203b349a3c42bf57b3208338e3161ee3fe99d7d7d633eac1b579"⟩

/-- The block written at `writeTime1` with measurement -1 on top of `exampleGenesis`. -/
def negativeBlock : Block :=
  ⟨1, writeTime1, -1, ofAscii "8d3a1adc4df531bd6c38e233af16ffe72bd1fb3338b4bb21c77ab3d5ccce6dbc",
   []⟩

/-- The block `negativeBlock` with its measurement changed from -1 to -2 and nothing else. -/
def tamperedBlock : Block := { negativeBlock with BPM := -2 }

/-! ## Test vectors -/

set_option maxRecDepth 100000 in
theorem sha256_empty :
    EncodeToString (sha256Sum []) =
      ofAscii "e3b0c44298fc1c149afbf4c8996fb92427ae41e4649b934ca495991b7852b855" := by
  decide

set_option maxRecDepth 100000 in
theorem sha256_abc :
    EncodeToString (sha256Sum (ofAscii "abc")) =
      ofAscii "ba7816bf8f01cfea414140de5dae2223b00361a396177a9cb410ff61f20015ad" := by
  decide

set_option maxRecDepth 100000 in
theorem sha256_two_blocks :
    EncodeToString
        (sha256Sum (ofAscii "abcdbcdecdefdefgefghfghighijhijkijkljklmklmnlmnomnopnopq")) =
      ofAscii "248d6a61d20638b8e5c026930c3e6039a33ce45964ff2167f6ecedd419db06c1" := by
  decide

theorem intstring_examples :
    intstring 65 = ofAscii "A" ∧ intstring 0 = [0] ∧ intstring 233 = [195, 169] ∧
    intstring 8364 = [226, 130, 172] ∧ intstring 128512 = [240, 159, 152, 128] ∧
    intstring (-1) = [239, 191, 189] ∧ intstring 55296 = [239, 191, 189] ∧
    intstring 1114112 = [239, 191, 189] ∧ intstring 4294967361 = [239, 191, 189] := by
  decide

/-! ## Integer lemmas -/

theorem wrapInt64_of_range (x : Int) (h0 : -9223372036854775808 ≤ x)
    (h1 : x < 9223372036854775808) : wrapInt64 x = x := by
  unfold wrapInt64
  omega

theorem wrapInt64_succ_wrap (x : Int) : wrapInt64 (wrapInt64 x + 1) = wrapInt64 (x + 1) := by
  unfold wrapInt64
  omega

theorem encoderune_runeError : encoderune (wrapInt32 runeError) = [239, 191, 189] := by
  decide

/-- Every integer that is not a Unicode scalar value is converted to U+FFFD. -/
theorem intstring_invalid (v : Int)
    (h : v < 0 ∨ (55296 ≤ v ∧ v ≤ 57343) ∨ 1114111 < v) :
    intstring v = [239, 191, 189] := by
  unfold intstring
  by_cases hw : wrapInt32 v = v
  · have hv : -2147483648 ≤ v ∧ v < 2147483648 := by
      unfold wrapInt32 at hw
      omega
    simp only [hw, ne_eq, not_true_eq_false, if_false]
    unfold encoderune
    simp only []
    have hi : 1114111 < (v % 4294967296).toNat ∨
        (55296 ≤ (v % 4294967296).toNat ∧ (v % 4294967296).toNat ≤ 57343) := by
      omega
    have h1 : ¬ (v % 4294967296).toNat ≤ 127 := by omega
    have h2 : ¬ (v % 4294967296).toNat ≤ 2047 := by omega
    rw [if_neg h1, if_neg h2, if_pos hi]
  · simp only [ne_eq, hw, not_false_eq_true, if_true]
    exact encoderune_runeError

/-! ## The digest is a function of four fields -/

theorem calculateHash_eq_of_fields (b1 b2 : Block) (hi : b1.Index = b2.Index)
    (ht : b1.Timestamp = b2.Timestamp) (hb : b1.BPM = b2.BPM)
    (hp : b1.PrevHash = b2.PrevHash) : calculateHash b1 = calculateHash b2 := by
  unfold calculateHash
  rw [hi, ht, hb, hp]

/-! ## Shape of the digest -/

theorem bytesBE_length (n x : Nat) : (bytesBE n x).length = n := by
  induction n with
  | zero => rfl
  | succ k ih => simp [bytesBE, ih]

theorem sha256Sum_length (msg : GoString) : (sha256Sum msg).length = 32 := by
  simp [sha256Sum, Digest.bytes, bytesBE_length]

theorem EncodeToString_length (l : List (Fin 256)) :
    (EncodeToString l).length = 2 * l.length := by
  induction l with
  | nil => rfl
  | cons v rest ih =>
    simp only [EncodeToString, List.length_cons, ih]
    omega

theorem hextable_lowerHex (n : Nat) (h : n < 16) : isLowerHexDigit (hextable.getD n 0) := by
  unfold isLowerHexDigit
  interval_cases n <;> decide

theorem EncodeToString_lowerHex (l : List (Fin 256)) :
    ∀ c ∈ EncodeToString l, isLowerHexDigit c := by
  induction l with
  | nil => intro c hc; simp [EncodeToString] at hc
  | cons v rest ih =>
    intro c hc
    simp only [EncodeToString, List.mem_cons] at hc
    rcases hc with hc | hc | hc
    · rw [hc]
      apply hextable_lowerHex
      have hv := v.isLt
      rw [Nat.shiftRight_eq_div_pow]
      omega
    · rw [hc]
      apply hextable_lowerHex
      have h15 : v.val &&& 15 ≤ 15 := Nat.and_le_right
      omega
    · exact ih c hc

theorem calculateHash_length (block : Block) : (calculateHash block).length = 64 := by
  simp [calculateHash, EncodeToString_length, sha256Sum_length]

theorem calculateHash_ne_nil (block : Block) : calculateHash block ≠ [] := by
  intro h
  have hlen := calculateHash_length block
  rw [h] at hlen
  simp at hlen

/-! ## Blocks made by `generateBlock` pass `isBlockValid` -/

theorem generateBlock_valid (now : GoString) (oldBlock : Block) (BPM : Int) :
    isBlockValid (generateBlock now oldBlock BPM).1 oldBlock = true := by
  simp only [isBlockValid, generateBlock, ne_eq, not_true_eq_false, if_false]
  rw [if_neg]
  rw [not_not]
  exact calculateHash_eq_of_fields _ _ rfl rfl rfl rfl

theorem writeToBlockchain_of_getLast (now : GoString) (chain : List Block) (last : Block)
    (m : Message) (hlast : chain.getLast? = some last) :
    writeToBlockchain now chain (some m) =
      some (chain ++ [(generateBlock now last m.BPM).1],
        Response.created (generateBlock now last m.BPM).1) := by
  have hv := generateBlock_valid now last m.BPM
  have he : generateBlock now last m.BPM = ((generateBlock now last m.BPM).1, none) := rfl
  unfold writeToBlockchain
  simp only [hlast]
  rw [he]
  simp only [hv, if_true, replaceChain, List.length_append, List.length_singleton]
  rw [if_pos (by omega)]

/-! ## The invariant of reachable chains -/

theorem writeToBlockchain_some_shape (now : GoString) (chain chain1 : List Block) (m : Message)
    (resp : Response) (hw : writeToBlockchain now chain (some m) = some (chain1, resp)) :
    ∃ last, chain.getLast? = some last ∧
      chain1 = chain ++ [(generateBlock now last m.BPM).1] := by
  cases hl : chain.getLast? with
  | none =>
    unfold writeToBlockchain at hw
    simp [hl] at hw
  | some last =>
    refine ⟨last, rfl, ?_⟩
    rw [writeToBlockchain_of_getLast now chain last m hl] at hw
    simp only [Option.some.injEq, Prod.mk.injEq] at hw
    exact hw.1.symm

theorem reachable_linked (chain : List Block) (h : Reachable chain) :
    chain ≠ [] ∧ chain.head?.map Block.Index = some 0 ∧
    chain.Chain'
      (fun prev next => next.Index = wrapInt64 (prev.Index + 1) ∧ next.PrevHash = prev.Hash) := by
  induction h with
  | init now => simp [main, firstblock]
  | write now m _ hw ih =>
    obtain ⟨last, hlast, rfl⟩ := writeToBlockchain_some_shape now _ _ m _ hw
    obtain ⟨hne, hhead, hchain⟩ := ih
    refine ⟨by simp, ?_, ?_⟩
    · rw [List.head?_append_of_ne_nil _ hne]
      exact hhead
    · rw [List.chain'_append]
      refine ⟨hchain, List.chain'_singleton _, ?_⟩
      intro x hx y hy
      rw [hlast] at hx
      simp only [Option.mem_def, Option.some.injEq] at hx
      simp only [List.head?_cons, Option.mem_def, Option.some.injEq] at hy
      subst hx
      subst hy
      exact ⟨rfl, rfl⟩

/-- Along a linked list whose first index is `wrapInt64 k`, the block at position `j` has
index `wrapInt64 (k + j)`. -/
theorem linked_index (chain : List Block) :
    ∀ k : Int, (∀ g ∈ chain.head?, g.Index = wrapInt64 k) →
    chain.Chain'
      (fun prev next => next.Index = wrapInt64 (prev.Index + 1) ∧ next.PrevHash = prev.Hash) →
    ∀ x ∈ chain, ∃ j : Nat, j < chain.length ∧ x.Index = wrapInt64 (k + j) := by
  induction chain with
  | nil => intro k _ _ x hx; simp at hx
  | cons g rest ih =>
    intro k hhead hchain x hx
    have hg : g.Index = wrapInt64 k := hhead g (by simp)
    rw [List.chain'_cons'] at hchain
    rcases List.mem_cons.mp hx with hx | hx
    · exact ⟨0, by simp, by simpa [hx] using hg⟩
    · have hrest : ∀ y ∈ rest.head?, y.Index = wrapInt64 (k + 1) := by
        intro y hy
        rw [(hchain.1 y hy).1, hg]
        exact wrapInt64_succ_wrap k
      obtain ⟨j, hj, hxj⟩ := ih (k + 1) hrest hchain.2 x hx
      refine ⟨j + 1, by simpa using hj, ?_⟩
      rw [hxj]
      congr 1
      push_cast
      omega

/-! ## What validation does detect -/

/-- A changed `Index` is caught by the first check of `isBlockValid`. -/
theorem tamper_Index_detected (b p : Block) (i : Int) (hv : isBlockValid b p = true)
    (hi : i ≠ b.Index) : isBlockValid { b with Index := i } p = false := by
  unfold isBlockValid at hv ⊢
  split_ifs at hv with h1
  rw [not_not] at h1
  rw [if_pos]
  simp only []
  rw [h1]
  exact fun h => hi h.symm

/-- A changed `PrevHash` is caught by the second check of `isBlockValid`. -/
theorem tamper_PrevHash_detected (b p : Block) (q : GoString) (hv : isBlockValid b p = true)
    (hq : q ≠ b.PrevHash) : isBlockValid { b with PrevHash := q } p = false := by
  unfold isBlockValid at hv ⊢
  split_ifs at hv with h1 h2
  rw [not_not] at h1 h2
  rw [if_neg (by simpa using h1), if_pos]
  simp only []
  rw [h2]
  exact fun h => hq h.symm

set_option maxRecDepth 100000 in
/-- The tamper scenario of the measurement 72 changed to 999 is caught by the third check. -/
theorem tamper_72_to_999_detected :
    isBlockValid exampleBlock1 exampleGenesis = true ∧
    isBlockValid { exampleBlock1 with BPM := 999 } exampleGenesis = false := by
  decide

/-! ## The claims -/

/-- C1: `isBlockValid newBlock oldBlock` returns true exactly when
`oldBlock.Index + 1 = newBlock.Index` (the sum being that of the Go `int`),
`oldBlock.Hash = newBlock.PrevHash` and `calculateHash newBlock = newBlock.Hash` all hold,
and it returns false exactly when one of the three fails. The sum is the integer sum for
every predecessor index of a Go `int` other than the largest one. -/
theorem isBlockValid_iff (newBlock oldBlock : Block) :
    (isBlockValid newBlock oldBlock = true ↔
      wrapInt64 (oldBlock.Index + 1) = newBlock.Index ∧
      oldBlock.Hash = newBlock.PrevHash ∧
      calculateHash newBlock = newBlock.Hash) ∧
    (isBlockValid newBlock oldBlock = false ↔
      wrapInt64 (oldBlock.Index + 1) ≠ newBlock.Index ∨
      oldBlock.Hash ≠ newBlock.PrevHash ∨
      calculateHash newBlock ≠ newBlock.Hash) ∧
    (-9223372036854775808 ≤ oldBlock.Index ∧ oldBlock.Index < 9223372036854775807 →
      wrapInt64 (oldBlock.Index + 1) = oldBlock.Index + 1) := by
  refine ⟨?_, ?_, fun h => wrapInt64_of_range _ (by omega) (by omega)⟩
  · unfold isBlockValid
    split_ifs <;> simp_all
  · unfold isBlockValid
    split_ifs <;> simp_all

/-- C3: after `replaceChain candidate` the chain is the candidate when the candidate is
strictly longer than the current chain, and is the unchanged current chain when the
candidate is not longer, whatever the blocks contain. -/
theorem replaceChain_fork_rule (current candidate : List Block) :
    (current.length < candidate.length → replaceChain current candidate = candidate) ∧
    (candidate.length ≤ current.length → replaceChain current candidate = current) := by
  unfold replaceChain
  constructor
  · intro h
    rw [if_pos h]
  · intro h
    rw [if_neg (by omega)]

theorem replaceChain_fork_rule_witness :
    ([exampleGenesis].length < [exampleGenesis, exampleBlock1].length ∧
      replaceChain [exampleGenesis] [exampleGenesis, exampleBlock1] =
        [exampleGenesis, exampleBlock1]) ∧
    ([exampleGenesis, negativeBlock].length ≤ [exampleGenesis, exampleBlock1].length ∧
      replaceChain [exampleGenesis, exampleBlock1] [exampleGenesis, negativeBlock] =
        [exampleGenesis, exampleBlock1]) :=
  ⟨⟨by decide, (replaceChain_fork_rule _ _).1 (by decide)⟩,
   ⟨by decide, (replaceChain_fork_rule _ _).2 (by decide)⟩⟩

/-- C4: for every predecessor, measurement and clock reading, `generateBlock` returns a nil
error and a block whose `Index` is the predecessor index plus one in 64-bit arithmetic,
whose `Timestamp` is the string of the clock reading, whose `BPM` is the measurement, whose
`PrevHash` is the predecessor hash, and whose `Hash` is `calculateHash` of the block itself. -/
theorem generateBlock_fields (now : GoString) (oldBlock : Block) (BPM : Int) :
    (generateBlock now oldBlock BPM).2 = none ∧
    (generateBlock now oldBlock BPM).1.Index = wrapInt64 (oldBlock.Index + 1) ∧
    (generateBlock now oldBlock BPM).1.Timestamp = now ∧
    (generateBlock now oldBlock BPM).1.BPM = BPM ∧
    (generateBlock now oldBlock BPM).1.PrevHash = oldBlock.Hash ∧
    (generateBlock now oldBlock BPM).1.Hash = calculateHash (generateBlock now oldBlock BPM).1 :=
  ⟨rfl, rfl, rfl, rfl, rfl, calculateHash_eq_of_fields _ _ rfl rfl rfl rfl⟩

/-- C5: on a chain with last block `last`, the write step generates a block from `last`,
the block passes `isBlockValid` against `last`, and the chain afterwards is the old chain
followed by that block: one longer, every earlier position unchanged, the generated block
last, and the generated block is the one sent back. -/
theorem writeToBlockchain_appends (now : GoString) (chain : List Block) (last : Block)
    (m : Int) (hlast : chain.getLast? = some last) :
    isBlockValid (generateBlock now last m).1 last = true ∧
    writeToBlockchain now chain (some ⟨m⟩) =
      some (chain ++ [(generateBlock now last m).1],
        Response.created (generateBlock now last m).1) ∧
    (chain ++ [(generateBlock now last m).1]).length = chain.length + 1 ∧
    (∀ i, i < chain.length → (chain ++ [(generateBlock now last m).1])[i]? = chain[i]?) ∧
    (chain ++ [(generateBlock now last m).1]).getLast? = some (generateBlock now last m).1 := by
  refine ⟨generateBlock_valid now last m, writeToBlockchain_of_getLast now chain last ⟨m⟩ hlast,
    by simp, ?_, List.getLast?_concat _⟩
  intro i hi
  exact List.getElem?_append_left hi

set_option maxRecDepth 100000 in
theorem writeToBlockchain_appends_witness :
    [exampleGenesis].getLast? = some exampleGenesis ∧
    writeToBlockchain writeTime1 [exampleGenesis] (some ⟨72⟩) =
      some ([exampleGenesis, exampleBlock1], Response.created exampleBlock1) := by
  have hg : (generateBlock writeTime1 exampleGenesis 72).1 = exampleBlock1 := by decide
  have h := (writeToBlockchain_appends writeTime1 [exampleGenesis] exampleGenesis 72 rfl).2.1
  rw [hg] at h
  exact ⟨rfl, h⟩

/-- C8: `calculateHash` depends on `Index`, `Timestamp`, `BPM` and `PrevHash` only, hashed
in that order: two blocks that agree on the four fields have the same digest whatever their
`Hash` fields, and the digest of a block with its `Hash` still empty is the digest of the
block with `Hash` filled in. -/
theorem calculateHash_four_fields (b1 b2 : Block) (hi : b1.Index = b2.Index)
    (ht : b1.Timestamp = b2.Timestamp) (hb : b1.BPM = b2.BPM)
    (hp : b1.PrevHash = b2.PrevHash) :
    calculateHash b1 = calculateHash b2 ∧
    calculateHash { b2 with Hash := [] } = calculateHash b2 ∧
    calculateHash b1 =
      EncodeToString (sha256Sum
        (intstring b2.Index ++ b2.Timestamp ++ intstring b2.BPM ++ b2.PrevHash)) := by
  refine ⟨calculateHash_eq_of_fields b1 b2 hi ht hb hp,
    calculateHash_eq_of_fields _ _ rfl rfl rfl rfl, ?_⟩
  rw [calculateHash_eq_of_fields b1 b2 hi ht hb hp]
  rfl

theorem calculateHash_four_fields_witness :
    ({ exampleBlock1 with Hash := [] } : Block).Hash ≠ exampleBlock1.Hash ∧
    calculateHash { exampleBlock1 with Hash := [] } = calculateHash exampleBlock1 :=
  ⟨by decide,
   (calculateHash_four_fields { exampleBlock1 with Hash := [] } exampleBlock1
      rfl rfl rfl rfl).1⟩

/-- C9: for every block, `calculateHash` returns the hexadecimal rendering of the 32-byte
SHA-256 digest: exactly 64 characters, each one of `0` to `9` or `a` to `f`, and so never
the empty string. -/
theorem calculateHash_shape (block : Block) :
    (calculateHash block).length = 64 ∧
    (∀ c ∈ calculateHash block, isLowerHexDigit c) ∧
    calculateHash block ≠ [] ∧
    (sha256Sum (intstring block.Index ++ block.Timestamp ++ intstring block.BPM ++
      block.PrevHash)).length = 32 := by
  refine ⟨calculateHash_length block, ?_, calculateHash_ne_nil block, sha256Sum_length _⟩
  intro c hc
  exact EncodeToString_lowerHex _ c hc

/-- C10: two blocks that agree on `Index`, `Timestamp` and `PrevHash` and whose `BPM`
values are both negative, both surrogates (0xD800 to 0xDFFF) or both above 0x10FFFF have
the same digest, because `string(int)` turns each such value into U+FFFD. -/
theorem calculateHash_invalid_BPM (b1 b2 : Block) (hi : b1.Index = b2.Index)
    (ht : b1.Timestamp = b2.Timestamp) (hp : b1.PrevHash = b2.PrevHash)
    (h : (b1.BPM < 0 ∧ b2.BPM < 0) ∨
      ((55296 ≤ b1.BPM ∧ b1.BPM ≤ 57343) ∧ (55296 ≤ b2.BPM ∧ b2.BPM ≤ 57343)) ∨
      (1114111 < b1.BPM ∧ 1114111 < b2.BPM)) :
    intstring b1.BPM = [239, 191, 189] ∧ intstring b2.BPM = [239, 191, 189] ∧
    calculateHash b1 = calculateHash b2 := by
  have h1 : intstring b1.BPM = [239, 191, 189] := by
    apply intstring_invalid
    omega
  have h2 : intstring b2.BPM = [239, 191, 189] := by
    apply intstring_invalid
    omega
  refine ⟨h1, h2, ?_⟩
  unfold calculateHash
  rw [hi, ht, hp, h1, h2]

theorem calculateHash_invalid_BPM_witness :
    (negativeBlock.BPM = -1 ∧ tamperedBlock.BPM = -2) ∧
    calculateHash negativeBlock = calculateHash tamperedBlock :=
  ⟨⟨rfl, rfl⟩,
   (calculateHash_invalid_BPM negativeBlock tamperedBlock rfl rfl rfl
      (Or.inl ⟨by decide, by decide⟩)).2.2⟩

/-- C6: every chain reachable from the genesis-only chain by write steps starts with a
block of `Index` 0 and links every adjacent pair: the next `Index` is the previous one plus
one in the arithmetic of the Go `int`, and the next `PrevHash` is the previous `Hash`. For
every chain whose length fits a Go slice the sum never wraps, so the next `Index` is the
previous one plus one in the integers. -/
theorem reachable_chain_growth (chain : List Block) (h : Reachable chain) :
    chain.head?.map Block.Index = some 0 ∧
    chain.Chain'
      (fun prev next => next.Index = wrapInt64 (prev.Index + 1) ∧ next.PrevHash = prev.Hash) ∧
    (chain.length ≤ 9223372036854775807 →
      chain.Chain' (fun prev next => next.Index = prev.Index + 1 ∧ next.PrevHash = prev.Hash)) := by
  obtain ⟨_, hhead, hchain⟩ := reachable_linked chain h
  refine ⟨hhead, hchain, ?_⟩
  intro hlen
  have hrange : ∀ x ∈ chain, 0 ≤ x.Index ∧ x.Index < 9223372036854775807 := by
    intro x hx
    have hh : ∀ g ∈ chain.head?, g.Index = wrapInt64 0 := by
      intro g hg
      rw [Option.mem_def] at hg
      rw [hg] at hhead
      simpa [wrapInt64] using hhead
    obtain ⟨j, hj, hxj⟩ := linked_index chain 0 hh hchain x hx
    rw [hxj, wrapInt64_of_range] <;> omega
  rw [List.Chain'.iff_mem] at hchain
  refine hchain.imp ?_
  rintro a b ⟨ha, hb, hab, hprev⟩
  refine ⟨?_, hprev⟩
  have h1 := hrange a ha
  rw [hab, wrapInt64_of_range] <;> omega

set_option maxRecDepth 100000 in
theorem reachable_chain_growth_witness :
    Reachable [exampleGenesis, exampleBlock1, exampleBlock2] ∧
    [exampleGenesis, exampleBlock1, exampleBlock2].Chain'
      (fun prev next => next.Index = prev.Index + 1 ∧ next.PrevHash = prev.Hash) := by
  have h0 : Reachable [exampleGenesis] := Reachable.init genesisTime
  have h1 : Reachable [exampleGenesis, exampleBlock1] :=
    Reachable.write writeTime1 ⟨72⟩ h0 (by decide : _ = some (_, Response.created exampleBlock1))
  have h2 : Reachable [exampleGenesis, exampleBlock1, exampleBlock2] :=
    Reachable.write writeTime2 ⟨85⟩ h1 (by decide : _ = some (_, Response.created exampleBlock2))
  exact ⟨h2, (reachable_chain_growth _ h2).2.2 (by decide)⟩

set_option maxRecDepth 100000 in
/-- C2: tamper detection fails for the measurement. The write request with `BPM` -1 on top
of the genesis block yields `negativeBlock`, which is valid against the genesis block;
changing only its `BPM` to the different value -2 and leaving `Hash` as it was gives
`tamperedBlock`, and `isBlockValid` still returns true for it. -/
theorem tamper_BPM_undetected :
    (generateBlock writeTime1 exampleGenesis (-1)).1 = negativeBlock ∧
    isBlockValid negativeBlock exampleGenesis = true ∧
    tamperedBlock.Index = negativeBlock.Index ∧
    tamperedBlock.Timestamp = negativeBlock.Timestamp ∧
    tamperedBlock.PrevHash = negativeBlock.PrevHash ∧
    tamperedBlock.Hash = negativeBlock.Hash ∧
    tamperedBlock.BPM ≠ negativeBlock.BPM ∧
    isBlockValid tamperedBlock exampleGenesis = true := by
  decide

/-! ## The genesis block -/

/-- The genesis block at every clock reading: the chain installed by `main` is the single
block with `Index` 0, the clock reading as `Timestamp`, `BPM` 0, empty `PrevHash` and the
empty string left as `Hash`. That `Hash` is never `calculateHash` of the block, so the
block passes `isBlockValid` against no predecessor. -/
theorem main_genesis (now : GoString) :
    main now = [firstblock now] ∧
    (firstblock now).Index = 0 ∧
    (firstblock now).Timestamp = now ∧
    (firstblock now).BPM = 0 ∧
    (firstblock now).PrevHash = [] ∧
    (firstblock now).Hash = [] ∧
    (firstblock now).Hash ≠ calculateHash (firstblock now) ∧
    ∀ oldBlock : Block, isBlockValid (firstblock now) oldBlock = false := by
  have hne : (firstblock now).Hash ≠ calculateHash (firstblock now) :=
    fun h => calculateHash_ne_nil (firstblock now) h.symm
  refine ⟨rfl, rfl, rfl, rfl, rfl, rfl, hne, ?_⟩
  intro oldBlock
  unfold isBlockValid
  split_ifs with h1 h2 h3
  · rfl
  · rfl
  · rfl
  · exact absurd (not_not.mp h3).symm hne

/-! ## The genesis hash -/

set_option maxRecDepth 100000 in
/-- C7: the genesis block is meant to carry the digest of its own fields, as every block
made by `generateBlock` does, but the literal in `main` leaves `Hash` empty. At
`genesisTime` the installed first block has the empty string as `Hash`, whereas
`calculateHash` of that block is the 64-character digest shown, so the two differ. -/
theorem genesis_hash_not_digest :
    (main genesisTime).head? = some exampleGenesis ∧
    exampleGenesis.Hash = [] ∧
    calculateHash exampleGenesis =
      ofAscii "3d9f508c39e4dc9c5345627853ae820f507b623ccdc1727213f35988d985c035" ∧
    exampleGenesis.Hash ≠ calculateHash exampleGenesis := by
  decide

end SimpleBlockchain
